import Mathlib

/-!
# ClaudLE: verification of the guess evaluator and rate limiter

Shallow embedding of the two core components of the `claudle-nextjs`
repository:

* the per-tile guess evaluators: `getLetterStatus` from
  `src/components/ClaudLE.tsx` (naive, position-local) and `checkGuess`
  (two-pass, duplicate-aware) from the `lib/utils` module shipped next to
  `lib/game-types`;
* the keyboard-state merge `getKeyboardState`;
* the fixed-window in-memory rate limiter of `src/middleware.ts`
  (`RATE_LIMITS`, `getRateLimitKey`, `checkRateLimit`, and the
  opportunistic store sweep).

Strings of the game are modelled as `List Char`; times are milliseconds
since epoch as `Nat`; the `remaining` counter is `Int` (JS numbers on
these code paths are integers).
-/

/-- The `LetterState` union from `lib/game-types`:
`'correct' | 'present' | 'absent' | 'empty'`. -/
inductive LetterState where
  | correct
  | present
  | absent
  | empty
deriving DecidableEq

/-- The `TileState` record from `lib/game-types`: a letter plus its state. -/
structure TileState where
  letter : Char
  state : LetterState
deriving DecidableEq

/-- The `GuessResult` record: the guessed word and its five tiles. -/
structure GuessResult where
  word : List Char
  tiles : List TileState
deriving DecidableEq

/-- `getLetterStatus` from `src/components/ClaudLE.tsx` (lines 344-355):
```
const letter = guess[letterIndex]
const targetLetter = targetWord[letterIndex]
if (letter === targetLetter) return 'correct'
else if (targetWord.includes(letter)) return 'present'
else return 'absent'
```
Callers validate both words to exactly five uppercase letters, so
`letterIndex` is always in range; out-of-range lookups use the default
`' '` which no validated word contains. -/
def getLetterStatus (targetWord guess : List Char) (letterIndex : Nat) : LetterState :=
  let letter := guess.getD letterIndex ' '
  let targetLetter := targetWord.getD letterIndex ' '
  if letter = targetLetter then LetterState.correct
  else if letter ∈ targetWord then LetterState.present
  else LetterState.absent

/-- First pass of `checkGuess` (`lib/utils`): walk the guess and target in
lockstep carrying the position index; exact matches become `correct`
tiles, the rest become provisional `absent` tiles while the unclaimed
target letter is staged into `remainingTarget` and the guess letter with
its index into `remainingGuess`, both in original left-to-right order.
Callers validate both words to the same length (5). -/
def pass1 : List Char → List Char → Nat →
    List TileState × List Char × List (Char × Nat)
  | [], _, _ => ([], [], [])
  | _ :: _, [], _ => ([], [], [])
  | g :: gs, t :: ts, i =>
    let rest := pass1 gs ts (i + 1)
    if g = t then
      (⟨g, LetterState.correct⟩ :: rest.1, rest.2.1, rest.2.2)
    else
      (⟨g, LetterState.absent⟩ :: rest.1, t :: rest.2.1, (g, i) :: rest.2.2)

/-- Second pass of `checkGuess`: for each staged guess letter in order, if
the letter still occurs in the remaining-target multiset, upgrade its tile
to `present` and remove one occurrence (`indexOf` + `splice(_, 1)` is
erasure of the first occurrence); otherwise leave the tile `absent`. -/
def pass2 : List (Char × Nat) → List Char → List TileState → List TileState
  | [], _, tiles => tiles
  | (letter, index) :: rest, remainingTarget, tiles =>
    if letter ∈ remainingTarget then
      pass2 rest (remainingTarget.erase letter)
        (tiles.set index ⟨letter, LetterState.present⟩)
    else
      pass2 rest remainingTarget tiles

/-- `checkGuess(guess, targetWord)` from `lib/utils`: the two-pass
duplicate-aware evaluator returning the word with its tiles. -/
def checkGuess (guess targetWord : List Char) : GuessResult :=
  let p := pass1 guess targetWord 0
  { word := guess, tiles := pass2 p.2.2 p.2.1 p.1 }

/-- Keyboard maps letters to their best-known state; an absent entry is
the JS `undefined` read of `keyboardState[tile.letter]`. -/
def Keyboard : Type := Char → Option LetterState

/-- Writing one key of the keyboard record. -/
def setKey (ks : Keyboard) (c : Char) (v : LetterState) : Keyboard :=
  fun c' => if c' = c then some v else ks c'

/-- The per-tile update step of `getKeyboardState` (`lib/utils`):
```
const currentState = keyboardState[tile.letter]
if (tile.state === 'correct') keyboardState[tile.letter] = 'correct'
else if (tile.state === 'present' && currentState !== 'correct')
  keyboardState[tile.letter] = 'present'
else if (!currentState) keyboardState[tile.letter] = tile.state
```
-/
def updateKeyboard (ks : Keyboard) (tile : TileState) : Keyboard :=
  let currentState := ks tile.letter
  if tile.state = LetterState.correct then
    setKey ks tile.letter LetterState.correct
  else if tile.state = LetterState.present ∧ currentState ≠ some LetterState.correct then
    setKey ks tile.letter LetterState.present
  else if currentState = none then
    setKey ks tile.letter tile.state
  else
    ks

/-- `getKeyboardState(guesses)` from `lib/utils`: fold the update step over
every tile of every guess in submission order, starting from the empty
record. -/
def getKeyboardState (guesses : List GuessResult) : Keyboard :=
  guesses.foldl (fun ks g => g.tiles.foldl updateKeyboard ks) (fun _ => none)

/-- Number of positions of `guess` holding letter `c` that
`getLetterStatus` classifies `present` or `correct` against `targetWord`. -/
def presentOrCorrectCount (targetWord guess : List Char) (c : Char) : Nat :=
  ((List.range guess.length).filter fun i =>
    guess.getD i ' ' = c ∧
      (getLetterStatus targetWord guess i = LetterState.correct ∨
       getLetterStatus targetWord guess i = LetterState.present)).length

/-- Same count for the tiles produced by the two-pass `checkGuess`. -/
def tileMarkCount (r : GuessResult) (c : Char) : Nat :=
  (r.tiles.filter fun t =>
    t.letter = c ∧
      (t.state = LetterState.correct ∨ t.state = LetterState.present)).length

/-! ## Lemmas: keyboard merge -/

/-- One tile update never downgrades a letter already recorded `correct`. -/
lemma updateKeyboard_keeps_correct (ks : Keyboard) (t : TileState) (c : Char)
    (h : ks c = some LetterState.correct) :
    updateKeyboard ks t c = some LetterState.correct := by
  unfold updateKeyboard setKey
  by_cases hc : c = t.letter
  · subst hc
    split
    · simp
    · split
      · next hcond => exact absurd h hcond.2
      · split
        · next hnone => rw [h] at hnone; cases hnone
        · exact h
  · split
    · simp [hc, h]
    · split
      · simp [hc, h]
      · split
        · simp [hc, h]
        · exact h

/-- Folding the update over a row of tiles keeps `correct` letters. -/
lemma foldl_tiles_keeps_correct (tiles : List TileState) (ks : Keyboard) (c : Char)
    (h : ks c = some LetterState.correct) :
    tiles.foldl updateKeyboard ks c = some LetterState.correct := by
  induction tiles generalizing ks with
  | nil => exact h
  | cons t ts ih => exact ih _ (updateKeyboard_keeps_correct _ _ _ h)

/-- Folding the update over whole guesses keeps `correct` letters. -/
lemma foldl_guesses_keeps_correct (gs : List GuessResult) (ks : Keyboard) (c : Char)
    (h : ks c = some LetterState.correct) :
    (gs.foldl (fun ks g => g.tiles.foldl updateKeyboard ks) ks) c
      = some LetterState.correct := by
  induction gs generalizing ks with
  | nil => exact h
  | cons g gs ih => exact ih _ (foldl_tiles_keeps_correct _ _ _ h)

/-! ## Claims about the guess evaluator and keyboard -/

/-- C1: the claim says the number of `present`+`correct` tiles per letter is
bounded by that letter's count in the target "because pass 2 removes one
occurrence per present mark".  The cited code, `getLetterStatus` in
`src/components/ClaudLE.tsx`, has no second pass: on guess `LLAMA` against
target `ALARM` it yields tiles `[present, correct, correct, present,
present]`, giving the letter `L` two `present`/`correct` marks although
`ALARM` contains only one `L` — the naive over-marking the spec itself
warns about. -/
theorem getLetterStatus_llama_alarm_overmarks :
    (List.range 5).map (getLetterStatus "ALARM".toList "LLAMA".toList) =
      [LetterState.present, LetterState.correct, LetterState.correct,
       LetterState.present, LetterState.present] ∧
    presentOrCorrectCount "ALARM".toList "LLAMA".toList 'L' = 2 ∧
    List.count 'L' "ALARM".toList = 1 := by decide

/-- The two-pass `checkGuess` from `lib/utils` — the evaluator the spec
describes — does satisfy the duplicate bound on the same input, and
reproduces the spec's `AUDIO`/`ADIEU` end-to-end expectation. -/
theorem checkGuess_llama_alarm_respects_bound :
    tileMarkCount (checkGuess "LLAMA".toList "ALARM".toList) 'L' = 1 ∧
    tileMarkCount (checkGuess "LLAMA".toList "ALARM".toList) 'A' = 2 ∧
    (checkGuess "ADIEU".toList "AUDIO".toList).tiles.map TileState.state =
      [LetterState.correct, LetterState.present, LetterState.present,
       LetterState.absent, LetterState.present] := by decide

/-- C2: once the merged keyboard state maps a letter to `correct`, merging
any further guesses still maps it to `correct` — no later guess downgrades
it to `present` or `absent`. -/
theorem getKeyboardState_correct_monotone (h1 h2 : List GuessResult) (c : Char)
    (h : getKeyboardState h1 c = some LetterState.correct) :
    getKeyboardState (h1 ++ h2) c = some LetterState.correct := by
  unfold getKeyboardState at h ⊢
  rw [List.foldl_append]
  exact foldl_guesses_keeps_correct _ _ _ h

/-- Witness for C2: `A` marked `correct` by the first guess stays `correct`
after a later guess marks `A` absent. -/
theorem getKeyboardState_correct_monotone_witness :
    getKeyboardState
      ([⟨"AAAAA".toList, [⟨'A', LetterState.correct⟩]⟩] ++
       [⟨"BCDEF".toList, [⟨'A', LetterState.absent⟩]⟩]) 'A'
      = some LetterState.correct :=
  getKeyboardState_correct_monotone
    [⟨"AAAAA".toList, [⟨'A', LetterState.correct⟩]⟩]
    [⟨"BCDEF".toList, [⟨'A', LetterState.absent⟩]⟩] 'A' (by decide)

/-- C9: evaluating a guess equal to the target classifies every tile
`correct`. -/
theorem getLetterStatus_self_all_correct (target : List Char) (i : Nat)
    (hlen : target.length = 5) (hi : i < 5) :
    getLetterStatus target target i = LetterState.correct := by
  unfold getLetterStatus
  simp

/-- Witness for C9 at target `AUDIO`, position 3. -/
theorem getLetterStatus_self_all_correct_witness :
    getLetterStatus "AUDIO".toList "AUDIO".toList 3 = LetterState.correct :=
  getLetterStatus_self_all_correct "AUDIO".toList 3 (by decide) (by decide)

/-- C10: a tile's classification depends only on its own letter and the
target: two guesses agreeing at position `i` receive the same state
there, whatever their other letters. -/
theorem getLetterStatus_depends_only_on_own_letter
    (targetWord g1 g2 : List Char) (i : Nat)
    (hl1 : g1.length = 5) (hl2 : g2.length = 5) (hi : i < 5)
    (hagree : g1.getD i ' ' = g2.getD i ' ') :
    getLetterStatus targetWord g1 i = getLetterStatus targetWord g2 i := by
  unfold getLetterStatus
  rw [hagree]

/-- Witness for C10: `LLAMA` and `PLUMB` agree at position 1. -/
theorem getLetterStatus_depends_only_on_own_letter_witness :
    getLetterStatus "ALARM".toList "LLAMA".toList 1 =
      getLetterStatus "ALARM".toList "PLUMB".toList 1 :=
  getLetterStatus_depends_only_on_own_letter "ALARM".toList
    "LLAMA".toList "PLUMB".toList 1 (by decide) (by decide) (by decide) (by decide)

/-! ## Rate limiter (`src/middleware.ts`) -/

/-- Per-route rate configuration: `{ maxRequests, windowMinutes }`. -/
structure RateConfig where
  maxRequests : Nat
  windowMinutes : Nat
deriving DecidableEq

/-- The static `RATE_LIMITS` table of `src/middleware.ts`, as the lookup
performed by `RATE_LIMITS[path as keyof typeof RATE_LIMITS]`. -/
def RATE_LIMITS (path : String) : Option RateConfig :=
  if path = "/api/claude/generate-word" then some ⟨5, 60 * 24⟩
  else if path = "/api/claude/get-hint" then some ⟨30, 60⟩
  else if path = "/api/claude/coaching" then some ⟨100, 60⟩
  else if path = "/api/claude/game-over" then some ⟨10, 60⟩
  else none

/-- A stored record: `{ count, resetTime }`. -/
structure RateRecord where
  count : Nat
  resetTime : Nat
deriving DecidableEq

/-- The in-memory `rateLimitStore` map, as a partial function on keys. -/
abbrev RateStore := String → Option RateRecord

/-- The store with no entries. -/
def emptyStore : RateStore := fun _ => none

/-- `rateLimitStore.set(key, value)`. -/
def setStore (s : RateStore) (key : String) (v : RateRecord) : RateStore :=
  fun k => if k = key then some v else s k

/-- `getRateLimitKey(ip, path)` of `src/middleware.ts`: for a configured
path, bucket the current time by `windowMs = windowMinutes * 60 * 1000`
(`Math.floor(now / windowMs) * windowMs` is Nat division here) and build
`` `${ip}-${path}-${windowStart}` ``; for an unconfigured path the raw
timestamp is used instead. -/
def getRateLimitKey (ip path : String) (now : Nat) : String :=
  match RATE_LIMITS path with
  | none => ip ++ "-" ++ path ++ "-" ++ toString now
  | some config =>
    let windowMs := config.windowMinutes * 60 * 1000
    ip ++ "-" ++ path ++ "-" ++ toString (now / windowMs * windowMs)

/-- `checkRateLimit(ip, path)` of `src/middleware.ts`, with the ambient
`Date.now()` and the module-level store made explicit: returns the
`{ allowed, remaining }` result together with the store after the call.
The branch order mirrors the source: unconfigured path `(true, 999)` with
no write; no record or `now > resetTime` resets to `count = 1`,
`resetTime = now + windowMs`; `count >= maxRequests` rejects with no
write; otherwise `count` is incremented in place. -/
def checkRateLimit (ip path : String) (now : Nat) (store : RateStore) :
    (Bool × Int) × RateStore :=
  match RATE_LIMITS path with
  | none => ((true, 999), store)
  | some config =>
    match store (getRateLimitKey ip path now) with
    | none =>
      ((true, (config.maxRequests : Int) - 1),
        setStore store (getRateLimitKey ip path now)
          ⟨1, now + config.windowMinutes * 60 * 1000⟩)
    | some current =>
      if current.resetTime < now then
        ((true, (config.maxRequests : Int) - 1),
          setStore store (getRateLimitKey ip path now)
            ⟨1, now + config.windowMinutes * 60 * 1000⟩)
      else if config.maxRequests ≤ current.count then
        ((false, 0), store)
      else
        ((true, (config.maxRequests : Int) - (current.count + 1)),
          setStore store (getRateLimitKey ip path now)
            ⟨current.count + 1, current.resetTime⟩)

/-- Run a sequence of checks `(ip, path, now)` left to right, collecting
each `{ allowed, remaining }` result and threading the store. -/
def runChecks : List (String × String × Nat) → RateStore →
    List (Bool × Int) × RateStore
  | [], s => ([], s)
  | (ip, path, t) :: ops, s =>
    let r := checkRateLimit ip path t s
    let rest := runChecks ops r.2
    (r.1 :: rest.1, rest.2)

/-- The opportunistic sweep in `middleware`: delete every record whose
`resetTime` has passed `now`. -/
def cleanupStore (now : Nat) (s : RateStore) : RateStore :=
  fun k => match s k with
    | some r => if r.resetTime < now then none else some r
    | none => none

/-- Stores reachable from the empty store by rate-limit checks and
opportunistic sweeps — the states the module-level `rateLimitStore` can
ever be in. -/
inductive ReachableStore : RateStore → Prop
  | init : ReachableStore emptyStore
  | check (ip path : String) (now : Nat) {s : RateStore} :
      ReachableStore s → ReachableStore (checkRateLimit ip path now s).2
  | sweep (now : Nat) {s : RateStore} :
      ReachableStore s → ReachableStore (cleanupStore now s)

/-- Per-route count bound: any record read through a configured route's
key is bounded by that route's own `maxRequests`.  This is well defined
because a configured key string determines its route
(`key_determines_route` below). -/
def StoreInv (s : RateStore) : Prop :=
  ∀ ip path cfg now r, RATE_LIMITS path = some cfg →
    s (getRateLimitKey ip path now) = some r → r.count ≤ cfg.maxRequests

/-- Every configured route allows at least one request per window. -/
lemma rATE_LIMITS_max_pos {path : String} {cfg : RateConfig}
    (h : RATE_LIMITS path = some cfg) : 1 ≤ cfg.maxRequests := by
  unfold RATE_LIMITS at h
  split at h
  · cases h; decide
  · split at h
    · cases h; decide
    · split at h
      · cases h; decide
      · split at h
        · cases h; decide
        · cases h

/-- Every configured route has a positive window length in milliseconds. -/
lemma rATE_LIMITS_window_pos {path : String} {cfg : RateConfig}
    (h : RATE_LIMITS path = some cfg) : 0 < cfg.windowMinutes * 60 * 1000 := by
  unfold RATE_LIMITS at h
  split at h
  · cases h; decide
  · split at h
    · cases h; decide
    · split at h
      · cases h; decide
      · split at h
        · cases h; decide
        · cases h

/-! ## Key strings determine their route -/

/-- `Nat.digitChar` yields `'*'` beyond 15. -/
lemma digitChar_eq_star_of_ge (m : Nat) : Nat.digitChar (m + 16) = '*' := by
  unfold Nat.digitChar
  repeat rw [if_neg (by omega)]

/-- No digit character is a dash. -/
lemma digitChar_ne_dash (n : Nat) : Nat.digitChar n ≠ '-' := by
  by_cases h16 : n < 16
  · interval_cases n <;> decide
  · obtain ⟨m, rfl⟩ : ∃ m, n = m + 16 := ⟨n - 16, by omega⟩
    rw [digitChar_eq_star_of_ge]
    decide

/-- `Nat.toDigitsCore` only prepends digit characters. -/
lemma toDigitsCore_no_dash :
    ∀ (fuel n : Nat) (ds : List Char), '-' ∉ ds →
      '-' ∉ Nat.toDigitsCore 10 fuel n ds := by
  intro fuel
  induction fuel with
  | zero =>
    intro n ds h
    simpa [Nat.toDigitsCore] using h
  | succ f ih =>
    intro n ds h hmem
    unfold Nat.toDigitsCore at hmem
    dsimp only at hmem
    split at hmem
    · rcases List.mem_cons.mp hmem with h1 | h2
      · exact digitChar_ne_dash _ h1.symm
      · exact h h2
    · refine ih _ _ ?_ hmem
      intro hm
      rcases List.mem_cons.mp hm with h1 | h2
      · exact digitChar_ne_dash _ h1.symm
      · exact h h2

/-- The decimal rendering of a natural number contains no dash — the key
separator cannot occur inside the `windowStart` component. -/
lemma repr_no_dash (n : Nat) : '-' ∉ (Nat.repr n).data :=
  toDigitsCore_no_dash (n + 1) n [] (by simp)

/-- Splitting two equal lists at an occurrence of `a` preceded by no other
occurrence is unambiguous. -/
lemma append_cons_eq_split {α : Type} (a : α) :
    ∀ (l1 l2 t1 t2 : List α), a ∉ l1 → a ∉ l2 →
      l1 ++ a :: t1 = l2 ++ a :: t2 → l1 = l2 ∧ t1 = t2 := by
  intro l1
  induction l1 with
  | nil =>
    intro l2 t1 t2 _ h2 heq
    cases l2 with
    | nil =>
      simp only [List.nil_append] at heq
      injection heq with _ h
      exact ⟨rfl, h⟩
    | cons b l2 =>
      simp only [List.nil_append, List.cons_append, List.cons.injEq] at heq
      exact absurd (by rw [heq.1]; exact List.mem_cons_self b l2) h2
  | cons c l1 ih =>
    intro l2 t1 t2 h1 h2 heq
    cases l2 with
    | nil =>
      simp only [List.cons_append, List.nil_append, List.cons.injEq] at heq
      exact absurd (by rw [← heq.1]; exact List.mem_cons_self c l1) h1
    | cons b l2 =>
      simp only [List.cons_append, List.cons.injEq] at heq
      obtain ⟨hcb, heq2⟩ := heq
      have h1h : a ∉ l1 := fun hm => h1 (List.mem_cons_of_mem _ hm)
      have h2h : a ∉ l2 := fun hm => h2 (List.mem_cons_of_mem _ hm)
      obtain ⟨hl, ht⟩ := ih l2 t1 t2 h1h h2h heq2
      exact ⟨by rw [hcb, hl], ht⟩

/-- Dual split at an occurrence of `a` followed by no other occurrence. -/
lemma append_cons_eq_split_last {α : Type} (a : α)
    (l1 l2 t1 t2 : List α) (h1 : a ∉ t1) (h2 : a ∉ t2)
    (heq : l1 ++ a :: t1 = l2 ++ a :: t2) : l1 = l2 ∧ t1 = t2 := by
  have hrev := congrArg List.reverse heq
  simp only [List.reverse_append, List.reverse_cons, List.append_assoc,
    List.singleton_append] at hrev
  obtain ⟨hl, ht⟩ := append_cons_eq_split a _ _ _ _
    (fun hm => h1 (List.mem_reverse.mp hm)) (fun hm => h2 (List.mem_reverse.mp hm)) hrev
  exact ⟨List.reverse_injective ht, List.reverse_injective hl⟩

/-- A configured path is one of the four table entries. -/
lemma rATE_LIMITS_path_cases {path : String} {cfg : RateConfig}
    (h : RATE_LIMITS path = some cfg) :
    path = "/api/claude/generate-word" ∨ path = "/api/claude/get-hint" ∨
    path = "/api/claude/coaching" ∨ path = "/api/claude/game-over" := by
  unfold RATE_LIMITS at h
  split at h
  · exact Or.inl (by assumption)
  · split at h
    · exact Or.inr (Or.inl (by assumption))
    · split at h
      · exact Or.inr (Or.inr (Or.inl (by assumption)))
      · split at h
        · exact Or.inr (Or.inr (Or.inr (by assumption)))
        · cases h

/-- Two equal `ip-path-windowStart` key strings built from configured
paths share the path: the numeric tail is dash-free, so stripping it at
the last dash leaves lists ending in the paths, and the four configured
paths end in four distinct characters. -/
lemma configured_key_inj {ip1 ip2 p1 p2 : String} {cfg1 cfg2 : RateConfig}
    (m1 m2 : Nat)
    (h1 : RATE_LIMITS p1 = some cfg1) (h2 : RATE_LIMITS p2 = some cfg2)
    (heq : ip1 ++ "-" ++ p1 ++ "-" ++ toString m1 =
      ip2 ++ "-" ++ p2 ++ "-" ++ toString m2) :
    p1 = p2 := by
  have hdata := congrArg String.data heq
  simp only [String.data_append] at hdata
  have hdata2 : (ip1.data ++ '-' :: p1.data) ++ '-' :: (toString m1).data =
      (ip2.data ++ '-' :: p2.data) ++ '-' :: (toString m2).data := by
    simpa [List.append_assoc, List.singleton_append, List.cons_append] using hdata
  obtain ⟨hmid, -⟩ := append_cons_eq_split_last '-' _ _ _ _
    (repr_no_dash m1) (repr_no_dash m2) hdata2
  have hlast := congrArg List.getLast? hmid
  rw [List.getLast?_append_of_ne_nil _ (List.cons_ne_nil _ _),
      List.getLast?_append_of_ne_nil _ (List.cons_ne_nil _ _)] at hlast
  rcases rATE_LIMITS_path_cases h1 with hp1 | hp1 | hp1 | hp1 <;>
    rcases rATE_LIMITS_path_cases h2 with hp2 | hp2 | hp2 | hp2 <;>
    subst hp1 <;> subst hp2 <;>
    first
      | rfl
      | (exfalso; revert hlast; decide)

/-- Equal storage keys of configured routes come from the same route. -/
lemma key_determines_route {ip1 ip2 p1 p2 : String} {cfg1 cfg2 : RateConfig}
    {t1 t2 : Nat}
    (h1 : RATE_LIMITS p1 = some cfg1) (h2 : RATE_LIMITS p2 = some cfg2)
    (hkey : getRateLimitKey ip1 p1 t1 = getRateLimitKey ip2 p2 t2) :
    p1 = p2 := by
  unfold getRateLimitKey at hkey
  simp only [h1, h2] at hkey
  exact configured_key_inj _ _ h1 h2 hkey

/-! ## Rate limiter lemmas -/

/-- One check preserves the per-route count invariant. -/
lemma checkRateLimit_preserves_inv (ip path : String) (now : Nat)
    {s : RateStore} (h : StoreInv s) :
    StoreInv (checkRateLimit ip path now s).2 := by
  intro ip2 p2 cfg2 now2 r h2 hk
  unfold checkRateLimit at hk
  split at hk
  · exact h ip2 p2 cfg2 now2 r h2 hk
  · rename_i cfg hcfg
    split at hk
    · dsimp only at hk
      unfold setStore at hk
      split at hk
      · rw [Option.some_inj] at hk
        subst hk
        exact rATE_LIMITS_max_pos h2
      · exact h ip2 p2 cfg2 now2 r h2 hk
    · rename_i current hcur
      split at hk
      · dsimp only at hk
        unfold setStore at hk
        split at hk
        · rw [Option.some_inj] at hk
          subst hk
          exact rATE_LIMITS_max_pos h2
        · exact h ip2 p2 cfg2 now2 r h2 hk
      · split at hk
        · exact h ip2 p2 cfg2 now2 r h2 hk
        · rename_i hcount
          dsimp only at hk
          unfold setStore at hk
          split at hk
          · rename_i hkeq
            rw [Option.some_inj] at hk
            subst hk
            have hroute : p2 = path := key_determines_route h2 hcfg hkeq
            subst hroute
            rw [h2] at hcfg
            injection hcfg with hcfg
            subst hcfg
            dsimp only
            omega
          · exact h ip2 p2 cfg2 now2 r h2 hk

/-- The sweep only deletes records, so it preserves the invariant. -/
lemma cleanupStore_preserves_inv (now : Nat) {s : RateStore}
    (h : StoreInv s) : StoreInv (cleanupStore now s) := by
  intro ip2 p2 cfg2 now2 r h2 hk
  unfold cleanupStore at hk
  split at hk
  · rename_i r2 hr
    split at hk
    · cases hk
    · rw [Option.some_inj] at hk
      subst hk
      exact h ip2 p2 cfg2 now2 r2 h2 hr
  · cases hk

/-- Every reachable store satisfies the count invariant. -/
lemma reachableStore_inv {s : RateStore} (hs : ReachableStore s) : StoreInv s := by
  induction hs with
  | init => intro ip2 p2 cfg2 now2 r _ hk; cases hk
  | check ip path now _ ih => exact checkRateLimit_preserves_inv ip path now ih
  | sweep now _ ih => exact cleanupStore_preserves_inv now ih

/-! ## Claims about the rate limiter -/

/-- C7: a route absent from `RATE_LIMITS` is allowed with the sentinel
remaining value `999`, the store is untouched, and the check is a total
function — the fail-open policy. -/
theorem checkRateLimit_fail_open (ip path : String) (now : Nat) (s : RateStore)
    (h : RATE_LIMITS path = none) :
    checkRateLimit ip path now s = ((true, 999), s) := by
  unfold checkRateLimit
  rw [h]

/-- Witness for C7: the unconfigured route `/api/other`. -/
theorem checkRateLimit_fail_open_witness :
    checkRateLimit "1.2.3.4" "/api/other" 7 emptyStore = ((true, 999), emptyStore) :=
  checkRateLimit_fail_open "1.2.3.4" "/api/other" 7 emptyStore (by decide)

/-- C5: a check at a time strictly after the stored record's `resetTime`
starts a fresh window whatever the old count was: the record is
overwritten with `count = 1`, `resetTime = now + windowMs`, and the call
returns `allowed = true`, `remaining = maxRequests - 1`. -/
theorem checkRateLimit_window_rollover (ip path : String) (cfg : RateConfig)
    (now : Nat) (s : RateStore) (current : RateRecord)
    (hcfg : RATE_LIMITS path = some cfg)
    (hcur : s (getRateLimitKey ip path now) = some current)
    (hexp : current.resetTime < now) :
    checkRateLimit ip path now s =
      ((true, (cfg.maxRequests : Int) - 1),
        setStore s (getRateLimitKey ip path now)
          ⟨1, now + cfg.windowMinutes * 60 * 1000⟩) := by
  unfold checkRateLimit
  split
  · rename_i hnone
    rw [hnone] at hcfg
    cases hcfg
  · rename_i cfg2 hcfg2
    rw [hcfg2] at hcfg
    injection hcfg with hcfg
    subst hcfg
    split
    · rename_i hnone
      exact absurd hcur (by simp [hnone])
    · rename_i cur2 hcur2
      rw [hcur2] at hcur
      injection hcur with hcur
      subst hcur
      rw [if_pos hexp]

/-- Witness for C5: an exhausted `get-hint` record whose window has
expired is replaced by a fresh one and the call is allowed in full. -/
theorem checkRateLimit_window_rollover_witness :
    checkRateLimit "1.2.3.4" "/api/claude/get-hint" 50
        (setStore emptyStore "1.2.3.4-/api/claude/get-hint-0" ⟨30, 10⟩) =
      ((true, 29),
        setStore (setStore emptyStore "1.2.3.4-/api/claude/get-hint-0" ⟨30, 10⟩)
          (getRateLimitKey "1.2.3.4" "/api/claude/get-hint" 50)
          ⟨1, 50 + 60 * 60 * 1000⟩) :=
  checkRateLimit_window_rollover "1.2.3.4" "/api/claude/get-hint" ⟨30, 60⟩ 50
    (setStore emptyStore "1.2.3.4-/api/claude/get-hint-0" ⟨30, 10⟩)
    ⟨30, 10⟩ (by decide) (by decide) (by decide)

/-- C4: in every reachable store, every record's count is at most the
configured `maxRequests` of its own route — `StoreInv` bounds any record
read through a route's key by that route's limit, which names the route
unambiguously since configured key strings determine their route — and a
rejected request (a live record already at or above `maxRequests`)
returns `allowed = false, remaining = 0` and leaves the store unchanged,
so the count saturates at `maxRequests`. -/
theorem checkRateLimit_count_saturates (s : RateStore) (hs : ReachableStore s) :
    StoreInv s ∧
    ∀ ip path cfg current now,
      RATE_LIMITS path = some cfg →
      s (getRateLimitKey ip path now) = some current →
      now ≤ current.resetTime →
      cfg.maxRequests ≤ current.count →
      checkRateLimit ip path now s = ((false, 0), s) := by
  refine ⟨reachableStore_inv hs, ?_⟩
  intro ip path cfg current now hcfg hcur hlive hfull
  unfold checkRateLimit
  split
  · rename_i hnone
    rw [hnone] at hcfg
    cases hcfg
  · rename_i cfg2 hcfg2
    rw [hcfg2] at hcfg
    injection hcfg with hcfg
    subst hcfg
    split
    · rename_i hnone
      exact absurd hcur (by simp [hnone])
    · rename_i cur2 hcur2
      rw [hcur2] at hcur
      injection hcur with hcur
      subst hcur
      rw [if_neg (by omega), if_pos hfull]

/-- Witness for C4: the store after one `generate-word` request is
reachable and satisfies the invariant; the same record, read back at a
later in-window instant with the count forced to the maximum, is
rejected unchanged. -/
theorem checkRateLimit_count_saturates_witness :
    StoreInv (checkRateLimit "1.2.3.4" "/api/claude/generate-word" 0 emptyStore).2 :=
  (checkRateLimit_count_saturates _
    (ReachableStore.check "1.2.3.4" "/api/claude/generate-word" 0
      ReachableStore.init)).1

/-- The result sequence the spec demands for a full window:
`remaining` strictly decreasing from `n - 1` down to `0`, all allowed,
then one rejected call with `remaining = 0`. -/
def descendingResults : Nat → List (Bool × Int)
  | 0 => [(false, 0)]
  | n + 1 => (true, (n : Int)) :: descendingResults n

/-- Two instants in the same window bucket of a configured route produce
the same storage key. -/
lemma getRateLimitKey_bucket (ip path : String) {cfg : RateConfig} {w t t0 : Nat}
    (hcfg : RATE_LIMITS path = some cfg)
    (hw : w = cfg.windowMinutes * 60 * 1000)
    (h : t / w = t0 / w) :
    getRateLimitKey ip path t = getRateLimitKey ip path t0 := by
  unfold getRateLimitKey
  simp only [hcfg]
  subst hw
  rw [h]

/-- Any instant lies strictly before the end of its own window bucket. -/
lemma lt_bucket_end {t w : Nat} (hw : 0 < w) : t < t / w * w + w := by
  have h1 := Nat.div_add_mod t w
  have h2 : t % w < w := Nat.mod_lt _ hw
  calc t = w * (t / w) + t % w := h1.symm
    _ < w * (t / w) + w := Nat.add_lt_add_left h2 _
    _ = t / w * w + w := by rw [Nat.mul_comm]

/-- Phase lemma for C3: starting from a live record with count `c` in the
window of `t1` whose `resetTime` covers the whole bucket, a run of
`maxRequests + 1 - c` same-bucket calls yields the descending tail. -/
lemma runChecks_same_window (ip path : String) (cfg : RateConfig) (w rt t1 : Nat)
    (hcfg : RATE_LIMITS path = some cfg)
    (hw : w = cfg.windowMinutes * 60 * 1000)
    (hrt : t1 / w * w + w ≤ rt) :
    ∀ (ts : List Nat) (s : RateStore) (c : Nat),
      1 ≤ c → c ≤ cfg.maxRequests →
      ts.length + c = cfg.maxRequests + 1 →
      (∀ t ∈ ts, t / w = t1 / w) →
      s (getRateLimitKey ip path t1) = some ⟨c, rt⟩ →
      (runChecks (ts.map fun t => (ip, path, t)) s).1 =
        descendingResults (cfg.maxRequests - c) := by
  intro ts
  induction ts with
  | nil =>
    intro s c hc1 hcmax hlen _ _
    simp only [List.length_nil] at hlen
    omega
  | cons t rest ih =>
    intro s c hc1 hcmax hlen hbucket hkey
    have hw0 : 0 < w := hw ▸ rATE_LIMITS_window_pos hcfg
    have hbt : t / w = t1 / w := hbucket t (List.mem_cons_self t rest)
    have hkeyeq : getRateLimitKey ip path t = getRateLimitKey ip path t1 :=
      getRateLimitKey_bucket ip path hcfg hw hbt
    have hlive : t ≤ rt := by
      have h1 := lt_bucket_end (t := t) hw0
      rw [hbt] at h1
      omega
    by_cases hfull : cfg.maxRequests ≤ c
    · have hrest : rest = [] := by
        simp only [List.length_cons] at hlen
        have : rest.length = 0 := by omega
        exact List.length_eq_zero.mp this
      subst hrest
      have hcheck : checkRateLimit ip path t s = ((false, 0), s) := by
        unfold checkRateLimit
        simp only [hcfg, hkeyeq, hkey]
        rw [if_neg (by omega), if_pos hfull]
      simp only [List.map_cons, List.map_nil, runChecks, hcheck]
      have : cfg.maxRequests - c = 0 := by omega
      rw [this]
      rfl
    · have hcheck : checkRateLimit ip path t s =
          ((true, (cfg.maxRequests : Int) - (c + 1)),
            setStore s (getRateLimitKey ip path t1) ⟨c + 1, rt⟩) := by
        unfold checkRateLimit
        simp only [hcfg, hkeyeq, hkey]
        rw [if_neg (by omega), if_neg hfull]
      simp only [List.map_cons, runChecks, hcheck]
      have hsplit : cfg.maxRequests - c = (cfg.maxRequests - (c + 1)) + 1 := by omega
      rw [hsplit]
      simp only [descendingResults]
      refine List.cons_eq_cons.mpr ⟨?_, ?_⟩
      · simp only [Prod.mk.injEq, true_and]
        omega
      · refine ih (setStore s (getRateLimitKey ip path t1) ⟨c + 1, rt⟩) (c + 1)
          (by omega) (by omega) ?_ ?_ ?_
        · simp only [List.length_cons] at hlen
          omega
        · intro t' ht'
          exact hbucket t' (List.mem_cons_of_mem _ ht')
        · unfold setStore
          simp

/-- C3: for a configured route and client with no record for the current
window, `maxRequests` same-window calls are all allowed with `remaining`
strictly decreasing from `maxRequests - 1` down to `0`, and the
`(maxRequests + 1)`-th call in the same window is rejected with
`remaining = 0`. -/
theorem checkRateLimit_exhaustion_sequence (ip path : String) (cfg : RateConfig)
    (t0 : Nat) (ts : List Nat) (s : RateStore)
    (hcfg : RATE_LIMITS path = some cfg)
    (hfresh : s (getRateLimitKey ip path t0) = none)
    (hlen : ts.length = cfg.maxRequests)
    (hwin : ∀ t ∈ ts,
      t / (cfg.windowMinutes * 60 * 1000) = t0 / (cfg.windowMinutes * 60 * 1000)) :
    (runChecks ((t0 :: ts).map fun t => (ip, path, t)) s).1 =
      descendingResults cfg.maxRequests := by
  have hmax1 : 1 ≤ cfg.maxRequests := rATE_LIMITS_max_pos hcfg
  have hcheck0 : checkRateLimit ip path t0 s =
      ((true, (cfg.maxRequests : Int) - 1),
        setStore s (getRateLimitKey ip path t0)
          ⟨1, t0 + cfg.windowMinutes * 60 * 1000⟩) := by
    unfold checkRateLimit
    simp only [hcfg, hfresh]
  simp only [List.map_cons, runChecks, hcheck0]
  have hdesc : descendingResults cfg.maxRequests =
      (true, ((cfg.maxRequests - 1 : Nat) : Int)) ::
        descendingResults (cfg.maxRequests - 1) := by
    conv_lhs => rw [show cfg.maxRequests = (cfg.maxRequests - 1) + 1 by omega]
    simp only [descendingResults]
  rw [hdesc]
  refine List.cons_eq_cons.mpr ⟨?_, ?_⟩
  · simp only [Prod.mk.injEq, true_and]
    omega
  · refine runChecks_same_window ip path cfg (cfg.windowMinutes * 60 * 1000)
      (t0 + cfg.windowMinutes * 60 * 1000) t0 hcfg rfl ?_ ts _ 1
      (by omega) (by omega) (by omega) hwin ?_
    · have := Nat.div_mul_le_self t0 (cfg.windowMinutes * 60 * 1000)
      omega
    · unfold setStore
      simp

/-- Witness for C3: six `generate-word` calls (limit 5 per day) from the
empty store, all in the first day bucket. -/
theorem checkRateLimit_exhaustion_sequence_witness :
    (runChecks (([0, 1, 2, 3, 4, 5] : List Nat).map
        fun t => ("9.9.9.9", "/api/claude/generate-word", t)) emptyStore).1 =
      descendingResults 5 :=
  checkRateLimit_exhaustion_sequence "9.9.9.9" "/api/claude/generate-word"
    ⟨5, 60 * 24⟩ 0 [1, 2, 3, 4, 5] emptyStore (by decide) (by decide) (by decide)
    (by decide)

/-- A check writes at most its own key: every other key keeps its record. -/
lemma checkRateLimit_frame (ip path : String) (now : Nat) (s : RateStore)
    (k : String) (hk : k ≠ getRateLimitKey ip path now) :
    (checkRateLimit ip path now s).2 k = s k := by
  unfold checkRateLimit
  split
  · rfl
  · split
    · simp [setStore, hk]
    · split
      · simp [setStore, hk]
      · split
        · rfl
        · simp [setStore, hk]

/-- A run of checks leaves every key none of them owns untouched. -/
lemma runChecks_frame (k : String) :
    ∀ (ops : List (String × String × Nat)) (s : RateStore),
      (∀ op ∈ ops, k ≠ getRateLimitKey op.1 op.2.1 op.2.2) →
      (runChecks ops s).2 k = s k := by
  intro ops
  induction ops with
  | nil => intro s _; rfl
  | cons op ops ih =>
    intro s hk
    obtain ⟨ip, path, t⟩ := op
    simp only [runChecks]
    rw [ih _ fun o ho => hk o (List.mem_cons_of_mem _ ho)]
    exact checkRateLimit_frame ip path t s k (hk (ip, path, t) (List.mem_cons_self _ _))

/-- The result of a check depends only on the store's value at its own
key. -/
lemma checkRateLimit_reads_only_key (ip path : String) (now : Nat)
    (s1 s2 : RateStore)
    (h : s1 (getRateLimitKey ip path now) = s2 (getRateLimitKey ip path now)) :
    (checkRateLimit ip path now s1).1 = (checkRateLimit ip path now s2).1 := by
  unfold checkRateLimit
  split
  · rfl
  · rw [h]
    split
    · rfl
    · split
      · rfl
      · split
        · rfl
        · rfl

/-- C6: rate-limit state is per-key: a check writes no other key, its
result reads no other key, and after any sequence of requests by client
A — in particular one exhausting A's window — the first request of a
different key B in that window is allowed with the full
`maxRequests - 1` remaining. -/
theorem checkRateLimit_key_isolation (ipA pA ipB pB : String) (tB : Nat)
    (cfgB : RateConfig) (ts : List Nat) (s : RateStore)
    (hcfgB : RATE_LIMITS pB = some cfgB)
    (hdiff : ∀ t ∈ ts, getRateLimitKey ipA pA t ≠ getRateLimitKey ipB pB tB)
    (hB : s (getRateLimitKey ipB pB tB) = none) :
    (∀ k, k ≠ getRateLimitKey ipB pB tB →
      (checkRateLimit ipB pB tB s).2 k = s k) ∧
    (∀ s2, s2 (getRateLimitKey ipB pB tB) = s (getRateLimitKey ipB pB tB) →
      (checkRateLimit ipB pB tB s2).1 = (checkRateLimit ipB pB tB s).1) ∧
    (checkRateLimit ipB pB tB (runChecks (ts.map fun t => (ipA, pA, t)) s).2).1 =
      (true, (cfgB.maxRequests : Int) - 1) := by
  refine ⟨fun k hk => checkRateLimit_frame ipB pB tB s k hk,
    fun s2 h2 => checkRateLimit_reads_only_key ipB pB tB s2 s h2, ?_⟩
  have hops : ∀ op ∈ ts.map fun t => (ipA, pA, t),
      getRateLimitKey ipB pB tB ≠ getRateLimitKey op.1 op.2.1 op.2.2 := by
    intro op hop
    obtain ⟨t, ht, rfl⟩ := List.mem_map.mp hop
    exact (hdiff t ht).symm
  have hrun : (runChecks (ts.map fun t => (ipA, pA, t)) s).2
      (getRateLimitKey ipB pB tB) = none :=
    (runChecks_frame _ _ _ hops).trans hB
  unfold checkRateLimit
  simp only [hcfgB, hrun]

/-- Witness for C6: client `1.1.1.1` exhausts `generate-word` with six
calls; client `2.2.2.2`'s first call in the same window is still allowed
with `remaining = 4`. -/
theorem checkRateLimit_key_isolation_witness :
    (∀ k, k ≠ getRateLimitKey "2.2.2.2" "/api/claude/generate-word" 0 →
      (checkRateLimit "2.2.2.2" "/api/claude/generate-word" 0 emptyStore).2 k =
        emptyStore k) ∧
    (∀ s2, s2 (getRateLimitKey "2.2.2.2" "/api/claude/generate-word" 0) =
        emptyStore (getRateLimitKey "2.2.2.2" "/api/claude/generate-word" 0) →
      (checkRateLimit "2.2.2.2" "/api/claude/generate-word" 0 s2).1 =
        (checkRateLimit "2.2.2.2" "/api/claude/generate-word" 0 emptyStore).1) ∧
    (checkRateLimit "2.2.2.2" "/api/claude/generate-word" 0
        (runChecks (([0, 0, 0, 0, 0, 0] : List Nat).map
          fun t => ("1.1.1.1", "/api/claude/generate-word", t)) emptyStore).2).1 =
      (true, (5 : Int) - 1) :=
  checkRateLimit_key_isolation "1.1.1.1" "/api/claude/generate-word"
    "2.2.2.2" "/api/claude/generate-word" 0 ⟨5, 60 * 24⟩ [0, 0, 0, 0, 0, 0]
    emptyStore (by decide) (by decide) (by decide)

/-! ## Cleanup invisibility -/

/-- `s2` is `s1` with some subset of the records expired at instant `tc`
deleted — the possible outcomes of the opportunistic sweep at `tc`. -/
def CleanedUnderAt (tc : Nat) (s1 s2 : RateStore) : Prop :=
  ∀ k, s2 k = s1 k ∨
    (s2 k = none ∧ ∃ r, s1 k = some r ∧ r.resetTime < tc)

/-- The sweep the middleware actually runs deletes exactly the expired
records, so its output is one of the states `CleanedUnderAt` describes. -/
lemma cleanupStore_cleanedUnderAt (now : Nat) (s : RateStore) :
    CleanedUnderAt now s (cleanupStore now s) := by
  intro k
  unfold cleanupStore
  cases hk : s k with
  | none => exact Or.inl rfl
  | some r =>
    by_cases hr : r.resetTime < now
    · exact Or.inr ⟨by simp [hr], r, rfl, hr⟩
    · exact Or.inl (by simp [hr])

/-- Evaluation of a check that finds no record for its key. -/
lemma checkRateLimit_none_eq (ip path : String) (now : Nat) (s : RateStore)
    {cfg : RateConfig} (hcfg : RATE_LIMITS path = some cfg)
    (hnone : s (getRateLimitKey ip path now) = none) :
    checkRateLimit ip path now s =
      ((true, (cfg.maxRequests : Int) - 1),
        setStore s (getRateLimitKey ip path now)
          ⟨1, now + cfg.windowMinutes * 60 * 1000⟩) := by
  unfold checkRateLimit
  simp only [hcfg, hnone]

/-- Evaluation of a check that finds an expired record for its key. -/
lemma checkRateLimit_expired_eq (ip path : String) (now : Nat) (s : RateStore)
    {cfg : RateConfig} {current : RateRecord}
    (hcfg : RATE_LIMITS path = some cfg)
    (hcur : s (getRateLimitKey ip path now) = some current)
    (hexp : current.resetTime < now) :
    checkRateLimit ip path now s =
      ((true, (cfg.maxRequests : Int) - 1),
        setStore s (getRateLimitKey ip path now)
          ⟨1, now + cfg.windowMinutes * 60 * 1000⟩) := by
  unfold checkRateLimit
  simp only [hcfg, hcur]
  rw [if_pos hexp]

/-- Two stores agreeing at a check's own key produce the same result and
agree at that key afterwards. -/
lemma checkRateLimit_same_at_key (ip path : String) (now : Nat)
    (s1 s2 : RateStore)
    (h : s1 (getRateLimitKey ip path now) = s2 (getRateLimitKey ip path now)) :
    (checkRateLimit ip path now s1).1 = (checkRateLimit ip path now s2).1 ∧
    (checkRateLimit ip path now s1).2 (getRateLimitKey ip path now) =
      (checkRateLimit ip path now s2).2 (getRateLimitKey ip path now) := by
  unfold checkRateLimit
  split
  · exact ⟨rfl, h⟩
  · rw [h]
    split
    · exact ⟨rfl, by simp [setStore]⟩
    · split
      · exact ⟨rfl, by simp [setStore]⟩
      · split
        · exact ⟨rfl, h⟩
        · exact ⟨rfl, by simp [setStore]⟩

/-- One check cannot tell a store from its swept version: results agree
and the stores stay in the swept relation. -/
lemma checkRateLimit_cleaned_step (ip path : String) (now tc : Nat)
    (s1 s2 : RateStore) (h : CleanedUnderAt tc s1 s2) (hnow : tc ≤ now) :
    (checkRateLimit ip path now s1).1 = (checkRateLimit ip path now s2).1 ∧
    CleanedUnderAt tc (checkRateLimit ip path now s1).2
      (checkRateLimit ip path now s2).2 := by
  cases hcfg : RATE_LIMITS path with
  | none =>
    have e1 : checkRateLimit ip path now s1 = ((true, 999), s1) := by
      unfold checkRateLimit; rw [hcfg]
    have e2 : checkRateLimit ip path now s2 = ((true, 999), s2) := by
      unfold checkRateLimit; rw [hcfg]
    rw [e1, e2]
    exact ⟨rfl, h⟩
  | some cfg =>
    rcases h (getRateLimitKey ip path now) with heq | ⟨hnone, r, hsome, hexp⟩
    · refine ⟨(checkRateLimit_same_at_key ip path now s1 s2 heq.symm).1, ?_⟩
      intro k
      by_cases hk : k = getRateLimitKey ip path now
      · subst hk
        exact Or.inl (checkRateLimit_same_at_key ip path now s1 s2 heq.symm).2.symm
      · rw [checkRateLimit_frame ip path now s1 k hk,
          checkRateLimit_frame ip path now s2 k hk]
        exact h k
    · have e1 := checkRateLimit_expired_eq ip path now s1 hcfg hsome
        (by omega)
      have e2 := checkRateLimit_none_eq ip path now s2 hcfg hnone
      rw [e1, e2]
      refine ⟨rfl, ?_⟩
      intro k
      by_cases hk : k = getRateLimitKey ip path now
      · subst hk
        exact Or.inl (by simp [setStore])
      · simp only [setStore, if_neg hk]
        exact h k

/-- C8: the opportunistic cleanup is observationally invisible: deleting
any subset of the records already expired at instant `tc` leaves every
subsequent check (at any time from `tc` on) with exactly the same
`{allowed, remaining}` results, because the check lazily resets expired
records itself. -/
theorem checkRateLimit_cleanup_invisible (tc : Nat) (s1 s2 : RateStore)
    (h : CleanedUnderAt tc s1 s2) (ops : List (String × String × Nat))
    (hops : ∀ op ∈ ops, tc ≤ op.2.2) :
    (runChecks ops s1).1 = (runChecks ops s2).1 := by
  induction ops generalizing s1 s2 with
  | nil => rfl
  | cons op ops ih =>
    obtain ⟨ip, path, t⟩ := op
    have hstep := checkRateLimit_cleaned_step ip path t tc s1 s2 h
      (hops (ip, path, t) (List.mem_cons_self _ _))
    simp only [runChecks]
    refine List.cons_eq_cons.mpr ⟨hstep.1, ?_⟩
    exact ih _ _ hstep.2 fun o ho => hops o (List.mem_cons_of_mem _ ho)

/-- Witness for C8: sweeping an expired record at `tc = 100` does not
change the result of a later `get-hint` check. -/
theorem checkRateLimit_cleanup_invisible_witness :
    (runChecks [("1.2.3.4", "/api/claude/get-hint", 150)]
        (setStore emptyStore "stale" ⟨3, 50⟩)).1 =
    (runChecks [("1.2.3.4", "/api/claude/get-hint", 150)]
        (cleanupStore 100 (setStore emptyStore "stale" ⟨3, 50⟩))).1 :=
  checkRateLimit_cleanup_invisible 100 (setStore emptyStore "stale" ⟨3, 50⟩)
    (cleanupStore 100 (setStore emptyStore "stale" ⟨3, 50⟩))
    (cleanupStore_cleanedUnderAt 100 (setStore emptyStore "stale" ⟨3, 50⟩))
    [("1.2.3.4", "/api/claude/get-hint", 150)] (by decide)
